import Mathlib

/-!
Verification development for the setlist/session normalization pipeline
(`scripts/normalize_data.py` together with the tables of `scripts/config.py`).

The Python code is shallowly embedded: pandas rows become structures, the
module-level helper functions become Lean functions over `List Char` /
`String`, dictionaries with insertion order become association lists, and the
two main passes (`create_final_songs_table`, `create_shows_setlists_tables`)
become folds over the input row lists.  The regular-expression fragments used
by the source (`\b[\w']+\b`, `\s+`) are modelled on their ASCII fragment,
which is the fragment every concrete input below lives in.
-/

namespace NormalizeData

/-- The apostrophe character (kept inside word tokens by the title regex). -/
def apos : Char := Char.ofNat 39

/-- ASCII fragment of the regex class `\w`: letters, digits, underscore. -/
def isWordChar (c : Char) : Bool := c.isAlphanum || c = '_'

/-- A character that can occur inside a `\b[\w']+\b` token: `\w` or `'`. -/
def isTokenChar (c : Char) : Bool := isWordChar c || c = apos

/-- One step of `str.replace`: fuel-indexed scan replacing every
non-overlapping occurrence of `pat` left to right.  The fuel is the length of
the scanned string, which bounds the number of steps, so the fuelled function
agrees with Python `str.replace` for every nonempty pattern. -/
def replaceAllFuel (pat repl : List Char) : Nat → List Char → List Char
  | 0, s => s
  | _ + 1, [] => []
  | fuel + 1, c :: rest =>
    if pat ≠ [] ∧ pat.isPrefixOf (c :: rest) then
      repl ++ replaceAllFuel pat repl fuel ((c :: rest).drop pat.length)
    else
      c :: replaceAllFuel pat repl fuel rest

/-- Python `s.replace(pat, repl)` for a nonempty pattern. -/
def replaceAll (pat repl : List Char) (s : List Char) : List Char :=
  replaceAllFuel pat repl s.length s

/-- `MINIMAL_REPLACEMENTS` from config.py, in dict insertion order (the order
Python applies them in). -/
def MINIMAL_REPLACEMENTS : List (List Char × List Char) :=
  [("(".data, " ".data), (")".data, " ".data),
   ("[".data, " ".data), ("]".data, " ".data),
   ("\x7b".data, " ".data), ("\x7d".data, " ".data),
   ("!".data, "".data), ("?".data, "".data), (".".data, "".data),
   ("&".data, " and ".data), ("+".data, " and ".data),
   ("/".data, " ".data), ("\\".data, " ".data),
   (" - ".data, " ".data), ("-".data, " ".data), ("_".data, " ".data),
   (":".data, "".data), (";".data, "".data), ("\"".data, "".data)]

/-- Apply all `MINIMAL_REPLACEMENTS`, in table order. -/
def applyReplacements (s : List Char) : List Char :=
  MINIMAL_REPLACEMENTS.foldl (fun acc p => replaceAll p.1 p.2 acc) s

/-- Maximal runs of characters satisfying `p`, in order; separator characters
are dropped.  Auxiliary accumulator form. -/
def runsByAux (p : Char → Bool) (s : List Char) : List Char × List (List Char) :=
  s.foldr
    (fun c acc =>
      if p c then (c :: acc.1, acc.2)
      else ([], if acc.1 = [] then acc.2 else acc.1 :: acc.2))
    ([], [])

/-- Maximal runs of characters satisfying `p`. -/
def runsBy (p : Char → Bool) (s : List Char) : List (List Char) :=
  let a := runsByAux p s
  if a.1 = [] then a.2 else a.1 :: a.2

/-- Strip leading and trailing apostrophes from a token run; this is what the
`\b` anchors of `re.findall(r"\b[\w listed]+\b", s)` do to a maximal
`[\w']`-run (a run containing no word character yields no token). -/
def dropApos (w : List Char) : List Char :=
  ((w.dropWhile (fun c => c = apos)).reverse.dropWhile (fun c => c = apos)).reverse

/-- Token extraction of the matcher regex on a preprocessed string: each
maximal `[\w']`-run, trimmed of boundary apostrophes, nonempty ones only. -/
def extractWords (s : List Char) : List (List Char) :=
  ((runsBy isTokenChar s).map dropApos).filter (fun w => w ≠ [])

/-- Lowercase a string (ASCII fragment of Python `str.lower`). -/
def lowerStr (s : String) : String := String.mk (s.data.map Char.toLower)

/-- `preprocess_title_for_matching` from normalize_data.py: `None`/empty give
`[]`; otherwise lowercase, apply the replacement table, extract word tokens. -/
def preprocess_title_for_matching (title : Option String) : List String :=
  match title with
  | none => []
  | some t =>
    if t = "" then []
    else (extractWords (applyReplacements (t.data.map Char.toLower))).map String.mk

/-- Replace every maximal whitespace run by a single space: the effect of
`RE_WHITESPACE.sub(" ", s)` for `RE_WHITESPACE = \s+`. -/
def subWS (s : List Char) : List Char :=
  s.foldr
    (fun c acc =>
      if c.isWhitespace then
        match acc with
        | ' ' :: _ => acc
        | _ => ' ' :: acc
      else c :: acc)
    []

/-- Python `str.strip()`: drop leading and trailing whitespace. -/
def stripWS (s : List Char) : List Char :=
  ((s.dropWhile Char.isWhitespace).reverse.dropWhile Char.isWhitespace).reverse

/-- Python `str.strip()` on `String`. -/
def pyStrip (s : String) : String := String.mk (stripWS s.data)

/-- Python `str.capitalize()` (ASCII fragment): first character uppercased,
the rest lowercased. -/
def capitalizeWord (w : List Char) : List Char :=
  match w with
  | [] => []
  | c :: cs => c.toUpper :: cs.map Char.toLower

/-- The nonempty pieces of `RE_WHITESPACE.split(s.strip())`: the maximal
non-whitespace runs of `s` (the source filters out empty pieces anyway). -/
def splitWhitespace (s : List Char) : List (List Char) :=
  runsBy (fun c => !c.isWhitespace) s

/-- `get_canonical_display_title` from normalize_data.py. -/
def get_canonical_display_title (title : Option String) : String :=
  match title with
  | none => "Unknown Title"
  | some t =>
    if t = "" then "Unknown Title"
    else
      let rep := applyReplacements t.data
      let words := (splitWhitespace rep).map capitalizeWord
      let joined := List.intercalate " ".data words
      let d0 := String.mk (stripWS (subWS joined))
      let d1 := if d0 = "4Th Of July Asbury Park Sandy"
                then "4th Of July Asbury Park (Sandy)" else d0
      let d2 := if d1 = "Born In The Usa" then "Born In The U.S.A." else d1
      if d2 = "" then "Unknown Title" else d2

/-- `get_album_from_session` from normalize_data.py: `None` (NaN) gives
"Unknown"; otherwise whitespace is collapsed and stripped, and the literal
"born in the usa" (case-insensitively) is corrected. -/
def get_album_from_session (session : Option String) : String :=
  match session with
  | none => "Unknown"
  | some s =>
    let album := String.mk (stripWS (subWS s.data))
    if lowerStr album = "born in the usa" then "Born in the U.S.A." else album

/-- `is_subsequence` from normalize_data.py: the iterator-consuming greedy
containment test (`all(c in it for c in needle)`). -/
def is_subsequence : List String → List String → Bool
  | [], _ => true
  | _ :: _, [] => false
  | c :: cs, h :: hs =>
    if c = h then is_subsequence cs hs else is_subsequence (c :: cs) hs

/-- Stable insertion keeping the first components in descending order; on
ties the inserted element goes first, which together with `sortDesc` below
models the stability of Python `list.sort(key=len, reverse=True)`. -/
def insertDesc (x : Nat × Nat) : List (Nat × Nat) → List (Nat × Nat)
  | [] => [x]
  | y :: ys => if x.1 < y.1 then y :: insertDesc x ys else x :: y :: ys

/-- Stable descending sort on the first component (any stable sort computes
the same list, so this models Python `matches.sort(key=..., reverse=True)`). -/
def sortDesc (l : List (Nat × Nat)) : List (Nat × Nat) := l.foldr insertDesc []

/-- First element of minimal key, as an executable function; used to describe
the head of `sortDesc`. -/
def pickFirstMax : List (Nat × Nat) → Option (Nat × Nat)
  | [] => none
  | x :: xs =>
    match pickFirstMax xs with
    | none => some x
    | some m => if x.1 < m.1 then some m else some x

/-- The `matches` list built by `find_match_by_sequence`: for every entry of
the canonical map (in iteration order) with a nonempty word list that is an
ordered subsequence of the query, the pair `(len(words), song_id)`. -/
def candidateList (raw_title_words : List String)
    (canonical_map : List (Nat × List String)) : List (Nat × Nat) :=
  (canonical_map.filter
      (fun p => p.2 ≠ [] ∧ is_subsequence p.2 raw_title_words)).map
    (fun p => (p.2.length, p.1))

/-- `find_match_by_sequence` from normalize_data.py.  The canonical map is a
Python dict iterated in insertion order, embedded as an association list
`(song_id, token sequence)` in that order. -/
def find_match_by_sequence (raw_title_words : List String)
    (canonical_map : List (Nat × List String)) : Option Nat :=
  if raw_title_words = [] then none
  else
    match sortDesc (candidateList raw_title_words canonical_map) with
    | [] => none
    | m :: _ => some m.2

/-- A row of the sessions CSV after column renaming (`song`, `session`,
`type`).  `none` models a pandas NaN (the `pd.isna` branches of the source);
CSV reading with `keep_default_na=False` produces `some` of a string. -/
structure SessionRow where
  song : Option String
  session : Option String
  type : String
deriving Repr, DecidableEq

/-- A raw setlist CSV row; all columns are strings under
`keep_default_na=False` (missing columns are defaulted to `""` by the
source before the row loops run). -/
structure SetlistRow where
  date : String
  venue : String
  tour : String
  city : String
  statecode : String
  statename : String
  countrycode : String
  countryname : String
  apidate : String
  shownotes : String
  song : String
  position : String
  notes : String
deriving Repr, DecidableEq

/-- A default (all-empty) setlist row, convenient for concrete examples. -/
def emptyRow : SetlistRow :=
  ⟨"", "", "", "", "", "", "", "", "", "", "", "", ""⟩

/-- A row of the final songs table, together with the `_processed_words`
column it carried until the final column selection. -/
structure CatalogSong where
  song_id : Nat
  title : String
  album : String
  is_outtake : Nat
  words : List String
deriving Repr, DecidableEq

/-- An intermediate song record of `create_final_songs_table`
(`all_songs_data` / `new_songs_data` entries, before ids are assigned). -/
structure PreSong where
  title : String
  album : String
  is_outtake : Nat
  words : List String
deriving Repr, DecidableEq

/-- The per-row decision of the session-file loop of
`create_final_songs_table`: `some` of the catalog record when the row passes
the presence, tokenization, display-title and already-seen checks (`seen` is
the `seen_preprocessed_words` accumulator), `none` when the row is skipped. -/
def sessionSongOf (seen : List (List String)) (r : SessionRow) : Option PreSong :=
  match r.song with
  | none => none
  | some t =>
    if t = "" then none
    else
      let ws := preprocess_title_for_matching (some t)
      let d := get_canonical_display_title (some t)
      if ws = [] ∨ d = "" then none
      else if ws ∈ seen then none
      else
        some { title := d, album := get_album_from_session r.session,
               is_outtake := if lowerStr r.type = "outtake" then 1 else 0,
               words := ws }

/-- The session-file loop of `create_final_songs_table`: one record per
accepted session row, the seen-set growing with each acceptance. -/
def session_entries_aux : List SessionRow → List (List String) → List PreSong
  | [], _ => []
  | r :: rs, seen =>
    match sessionSongOf seen r with
    | none => session_entries_aux rs seen
    | some p => p :: session_entries_aux rs (p.words :: seen)

/-- The session part of the catalog (`initial_songs_df`). -/
def session_entries (rows : List SessionRow) : List PreSong :=
  session_entries_aux rows []

/-- First-occurrence deduplication with a seen accumulator. -/
def dedupFirstAux : List (Option String) → List (Option String) → List (Option String)
  | [], _ => []
  | t :: ts, seen =>
    if t ∈ seen then dedupFirstAux ts seen
    else t :: dedupFirstAux ts (t :: seen)

/-- First-occurrence deduplication, as `Series.drop_duplicates()`. -/
def dedupFirst (l : List (Option String)) : List (Option String) :=
  dedupFirstAux l []

/-- `missing_songs_map[key].add(title)`: insertion-ordered grouping map with
set semantics inside each group (duplicates not re-added). -/
def addToGroup (key : List String) (title : String) :
    List (List String × List String) → List (List String × List String)
  | [] => [(key, [title])]
  | g :: gs =>
    if g.1 = key then (g.1, if title ∈ g.2 then g.2 else g.2 ++ [title]) :: gs
    else g :: addToGroup key title gs

/-- One iteration of the setlist-title scan of `create_final_songs_table`:
skip absent/empty titles, titles with no tokens, and titles whose token
sequence is already `known`; group the rest by token sequence. -/
def missingStep (known : List (List String))
    (m : List (List String × List String)) (t : Option String) :
    List (List String × List String) :=
  match t with
  | none => m
  | some s =>
    if s = "" then m
    else
      let ws := preprocess_title_for_matching (some s)
      if ws = [] then m
      else if ws ∈ known then m
      else addToGroup ws s m

/-- The setlist-title scan of `create_final_songs_table`: every distinct raw
setlist title whose token sequence is nonempty and not already `known` is
grouped (in first-appearance order of its token sequence) with the other raw
spellings that tokenize identically. -/
def missing_songs_map (known : List (List String))
    (titles : List (Option String)) : List (List String × List String) :=
  (dedupFirst titles).foldl (missingStep known) []

/-- Python `min(ts, key=len)` over iteration order `ts`: the first element of
minimal length (`min` replaces its candidate only on a strict decrease). -/
def pyMin (ts : List String) : String :=
  match ts with
  | [] => ""
  | t :: rest =>
    rest.foldl (fun acc x => if x.length < acc.length then x else acc) t

/-- The cover-creation loop of `create_final_songs_table`.  `reorder` models
the iteration order of the Python `set` of raw spellings inside each group
(an unordered set; a run of the interpreter iterates it in some order that
the module does not control). -/
def cover_entries (reorder : List String → List String)
    (m : List (List String × List String)) : List PreSong :=
  m.filterMap
    (fun g =>
      let rep := pyMin (reorder g.2)
      let d := get_canonical_display_title (some rep)
      if d = "" then none
      else some { title := d, album := "Cover", is_outtake := 0, words := g.1 })

/-- `DataFrame.drop_duplicates(subset=[_processed_tuple], keep=first)`. -/
def dedupByWords : List PreSong → List (List String) → List PreSong
  | [], _ => []
  | p :: ps, seen =>
    if p.words ∈ seen then dedupByWords ps seen
    else p :: dedupByWords ps (p.words :: seen)

/-- `create_final_songs_table` from normalize_data.py: session songs first,
then covers discovered from setlist titles, deduplicated by token sequence,
with dense 1-based ids in creation order.  Returns the songs table and the
matching map (an association list in dict insertion order, i.e. ascending
song_id).  The corner in which no session row survives (where pandas raises
on the missing column) is exercised by no claim and modelled as an empty
initial catalog. -/
def create_final_songs_table (reorder : List String → List String)
    (sessions : List SessionRow) (setlistSongs : List (Option String)) :
    List CatalogSong × List (Nat × List String) :=
  let initial := session_entries sessions
  let known := initial.map (fun p => p.words)
  let m := missing_songs_map known setlistSongs
  let news := cover_entries reorder m
  let combined := dedupByWords (initial ++ news) []
  let numbered := combined.enumFrom 1
  (numbered.map (fun ip =>
      { song_id := ip.1, title := ip.2.title, album := ip.2.album,
        is_outtake := ip.2.is_outtake, words := ip.2.words }),
   numbered.map (fun ip => (ip.1, ip.2.words)))

/-- A row of the shows table (`shows_data` entries). -/
structure ShowRow where
  show_id : Nat
  date : Option String
  tour : String
  venue : String
  city : String
  state_name : Option String
  state_code : Option String
  country_name : Option String
  country_code : Option String
  show_notes : Option String
deriving Repr, DecidableEq

/-- Digit list to number, most significant first. -/
def digitsToNat (ds : List Char) : Nat :=
  ds.foldl (fun n c => 10 * n + (c.toNat - 48)) 0

/-- Gregorian leap year. -/
def isLeapYear (y : Nat) : Bool :=
  (y % 4 = 0 && y % 100 ≠ 0) || y % 400 = 0

/-- Days in a month. -/
def daysInMonth (y m : Nat) : Nat :=
  if m = 2 then (if isLeapYear y then 29 else 28)
  else if m = 4 ∨ m = 6 ∨ m = 9 ∨ m = 11 then 30
  else 31

/-- `pd.to_datetime(s, format="%m/%d/%Y", errors="coerce")`, modelled on the
strptime grammar: a 1-2 digit month, `/`, a 1-2 digit day, `/`, a 4 digit
year, nothing after, with the date valid in the proleptic Gregorian calendar
(the out-of-range pandas Timestamp corner, far outside every input year, is
not modelled).  `none` is NaT. -/
def parse_mdY (s : String) : Option (Nat × Nat × Nat) :=
  let p1 := s.data.span Char.isDigit
  match p1.2 with
  | '/' :: r2 =>
    let p2 := r2.span Char.isDigit
    match p2.2 with
    | '/' :: r4 =>
      let p3 := r4.span Char.isDigit
      if p3.2 = [] ∧ (p1.1.length = 1 ∨ p1.1.length = 2) ∧
          (p2.1.length = 1 ∨ p2.1.length = 2) ∧ p3.1.length = 4 then
        let m := digitsToNat p1.1
        let d := digitsToNat p2.1
        let y := digitsToNat p3.1
        if 1 ≤ m ∧ m ≤ 12 ∧ 1 ≤ d ∧ d ≤ daysInMonth y m then some (y, m, d)
        else none
      else none
    | _ => none
  | _ => none

/-- Zero-pad to two digits. -/
def pad2 (n : Nat) : String := if n < 10 then "0" ++ toString n else toString n

/-- `strftime("%Y-%m-%d")` for a parsed (4-digit-year) date. -/
def formatDate (ymd : Nat × Nat × Nat) : String :=
  toString ymd.1 ++ "-" ++ pad2 ymd.2.1 ++ "-" ++ pad2 ymd.2.2

/-- State of the show-identification loop of
`create_shows_setlists_tables`. -/
structure ResolveState where
  shows : List ShowRow
  show_keys : List (Option String × String)
  origMap : List ((String × String) × Nat)
  counter : Nat
deriving Repr, DecidableEq

/-- One iteration of the show-identification loop: skip rows with a blank
date or venue; normalize the date; drop rows whose (normalized date, venue)
key was already seen; otherwise mint a show with the next dense id and
register the (stripped) original date/venue strings in the original-key
map. -/
def resolveStep (st : ResolveState) (row : SetlistRow) : ResolveState :=
  let original_date_str := pyStrip row.date
  let original_venue_str := pyStrip row.venue
  if original_date_str = "" ∨ original_venue_str = "" then st
  else
    let parsed := parse_mdY original_date_str
    let db_date_str : Option String := parsed.map formatDate
    let output_year : Option String := parsed.map (fun ymd => toString ymd.1)
    let venue_str := if original_venue_str ≠ "" then original_venue_str
                     else "Unknown Venue"
    let key := (db_date_str, venue_str)
    if key ∈ st.show_keys then st
    else
      let raw_tour_name := pyStrip row.tour
      let raw_city := pyStrip row.city
      let raw_state_code := pyStrip row.statecode
      let raw_state_name := pyStrip row.statename
      let raw_country_code := pyStrip row.countrycode
      let raw_country_name := pyStrip row.countryname
      let raw_show_notes := pyStrip row.shownotes
      let final_tour_name :=
        if raw_tour_name ≠ "" then raw_tour_name
        else match output_year with
             | some y => y
             | none => "Unknown Tour"
      let newShow : ShowRow :=
        { show_id := st.counter, date := db_date_str, tour := final_tour_name,
          venue := venue_str,
          city := if raw_city ≠ "" then raw_city else "Unknown City",
          state_name := if raw_state_name ≠ "" then some raw_state_name else none,
          state_code := if raw_state_code ≠ "" then some raw_state_code else none,
          country_name := if raw_country_name ≠ "" then some raw_country_name else none,
          country_code := if raw_country_code ≠ "" then some raw_country_code else none,
          show_notes := if raw_show_notes ≠ "" then some raw_show_notes else none }
      let okey := (original_date_str, original_venue_str)
      { shows := st.shows ++ [newShow],
        show_keys := key :: st.show_keys,
        origMap :=
          if okey ∈ st.origMap.map Prod.fst then st.origMap
          else st.origMap ++ [(okey, st.counter)],
        counter := st.counter + 1 }

/-- The whole show-identification pass. -/
def resolveShows (rows : List SetlistRow) : ResolveState :=
  rows.foldl resolveStep ⟨[], [], [], 1⟩

/-- Association-list lookup (Python `dict.get`). -/
def alookup {α β : Type} [DecidableEq α] : List (α × β) → α → Option β
  | [], _ => none
  | p :: ps, k => if p.1 = k then some p.2 else alookup ps k

/-- `preprocess_title_for_matching("Born In The USA")`. -/
def standard_bitusa_words : List String :=
  preprocess_title_for_matching (some "Born In The USA")

/-- `preprocess_title_for_matching("Born In The USA (Acoustic)")`. -/
def reunion_bitusa_words : List String :=
  preprocess_title_for_matching (some "Born In The USA (Acoustic)")

/-- `REUNION_TOUR_RAW_NAMES` from config.py. -/
def REUNION_TOUR_RAW_NAMES : List String := ["reunion tour", "reunion"]

/-- The id-discovery loop over the canonical map: the last entry whose words
equal the standard (resp. acoustic) BITUSA sequence wins (at most one exists
in a deduplicated catalog). -/
def findBitusaIds (cmap : List (Nat × List String)) : Option Nat × Option Nat :=
  cmap.foldl
    (fun acc p =>
      if p.2 = standard_bitusa_words then (some p.1, acc.2)
      else if p.2 = reunion_bitusa_words then (acc.1, some p.1)
      else acc)
    (none, none)

/-- Integer fragment of `pd.to_numeric(s, errors="coerce")`: surrounding
whitespace is ignored and an optionally signed digit string parses to that
integer; everything else coerces to NaN (`none`).  (The float fragment of
`to_numeric`, which no claim exercises, is not modelled.) -/
def to_numeric_int (s : String) : Option Int :=
  match stripWS s.data with
  | [] => none
  | '-' :: ds =>
    if ds ≠ [] ∧ ds.all Char.isDigit then some (-(digitsToNat ds : Int))
    else none
  | '+' :: ds =>
    if ds ≠ [] ∧ ds.all Char.isDigit then some (digitsToNat ds : Int)
    else none
  | ds =>
    if ds.all Char.isDigit then some (digitsToNat ds : Int) else none

/-- The position computation of the setlist loop: the parsed number, or 0
when parsing fails (`pd.isna(numeric_pos)`). -/
def parsePosition (s : String) : Int := (to_numeric_int s).getD 0

/-- The per-row song resolution of the setlist loop (the contextual BITUSA
check followed, when it does not fire, by generic sequence matching); returns
the chosen song id (`none` = no match) and the `match_method` string. -/
def chooseSongId (raw_title_words : List String)
    (standard_bitusa_id reunion_bitusa_id : Option Nat) (tour_name : String)
    (canonical_map : List (Nat × List String)) : Option Nat × String :=
  if raw_title_words = standard_bitusa_words ∧ standard_bitusa_id ≠ none then
    if lowerStr tour_name ∈ REUNION_TOUR_RAW_NAMES ∧ reunion_bitusa_id ≠ none then
      (reunion_bitusa_id, "Contextual (Reunion Tour)")
    else
      (standard_bitusa_id, "Contextual (Standard BITUSA)")
  else
    match find_match_by_sequence raw_title_words canonical_map with
    | some sid => (some sid, "Sequence Match (Success)")
    | none => (none, "Sequence Match (Fail)")

/-- A row of the setlists table. -/
structure SetlistEntry where
  setlist_entry_id : Nat
  show_id : Nat
  song_id : Nat
  position : Int
  notes : String
deriving Repr, DecidableEq

/-- State of the setlist-creation loop. -/
structure LinkState where
  entries : List SetlistEntry
  setlist_keys : List (Nat × Nat × Int)
  counter : Nat
deriving Repr, DecidableEq

/-- One iteration of the setlist-creation loop: resolve the show through the
original-key map, tokenize the title, choose a song id (contextual check
first, then sequence matching), parse the position, and drop duplicate
(show, song, position) triples. -/
def linkStep (cmap : List (Nat × List String))
    (origMap : List ((String × String) × Nat)) (tourMap : List (Nat × String))
    (stdId reuId : Option Nat) (st : LinkState) (row : SetlistRow) : LinkState :=
  match alookup origMap (pyStrip row.date, pyStrip row.venue) with
  | none => st
  | some show_id =>
    if pyStrip row.song = "" then st
    else if preprocess_title_for_matching (some (pyStrip row.song)) = [] then st
    else
      match (chooseSongId (preprocess_title_for_matching (some (pyStrip row.song)))
          stdId reuId ((alookup tourMap show_id).getD "") cmap).1 with
      | none => st
      | some song_id =>
        if ((show_id, song_id, parsePosition row.position) : Nat × Nat × Int) ∈
            st.setlist_keys then st
        else
          { entries := st.entries ++
              [{ setlist_entry_id := st.counter, show_id := show_id,
                 song_id := song_id, position := parsePosition row.position,
                 notes := pyStrip row.notes }],
            setlist_keys := (show_id, song_id, parsePosition row.position) ::
              st.setlist_keys,
            counter := st.counter + 1 }

/-- `create_shows_setlists_tables` from normalize_data.py: the show
identification pass followed by the setlist-linking pass.  The corner in
which no show at all is minted (where pandas raises a KeyError on
`set_index` over the empty, columnless shows frame, aborting the run before
any output) is exercised by no claim and modelled as an empty tour map. -/
def create_shows_setlists_tables (rows : List SetlistRow)
    (cmap : List (Nat × List String)) : List ShowRow × List SetlistEntry :=
  let rs := resolveShows rows
  let ids := findBitusaIds cmap
  let tourMap := rs.shows.map (fun s => (s.show_id, s.tour))
  let ls := rows.foldl (linkStep cmap rs.origMap tourMap ids.1 ids.2) ⟨[], [], 1⟩
  (rs.shows, ls.entries)

/-- The three output collections. -/
structure PipelineOutput where
  songs : List CatalogSong
  shows : List ShowRow
  setlists : List SetlistEntry
deriving Repr, DecidableEq

/-- `normalize_database_schema` from normalize_data.py, with file I/O
shallowly embedded: an input file is `none` when missing, `some` of its
parsed rows otherwise; the two existence checks run (sessions first) before
anything is computed, and an `Except.error` models `sys.exit` before any
output file is written. -/
def normalize_database_schema (reorder : List String → List String)
    (sessionsFile : Option (List SessionRow))
    (setlistsFile : Option (List SetlistRow)) : Except String PipelineOutput :=
  match sessionsFile with
  | none => .error "Songs/Sessions file not found"
  | some sessions =>
    match setlistsFile with
    | none => .error "Raw Setlists file not found"
    | some rows =>
      let built := create_final_songs_table reorder sessions
        (rows.map (fun r => some r.song))
      let st := create_shows_setlists_tables rows built.2
      .ok { songs := built.1, shows := st.1, setlists := st.2 }

/-- The behaviour the sequence matcher is claimed to have: `none` only when
no catalog entry with a nonempty token sequence is an ordered subsequence of
the query, otherwise the id of a longest such entry, ties resolved to the
smallest song id. -/
def MatcherSpec (Q : List String) (cmap : List (Nat × List String)) : Prop :=
  match find_match_by_sequence Q cmap with
  | none => ∀ p ∈ cmap, p.2 ≠ [] → ¬ p.2.Sublist Q
  | some sid =>
    ∃ ws, (sid, ws) ∈ cmap ∧ ws ≠ [] ∧ ws.Sublist Q ∧
      (∀ q ∈ cmap, q.2 ≠ [] → q.2.Sublist Q → q.2.length ≤ ws.length) ∧
      (∀ q ∈ cmap, q.2 ≠ [] → q.2.Sublist Q → q.2.length = ws.length → sid ≤ q.1)

/-- Concrete matcher inputs used to witness the matcher theorem. -/
def cmapBTR : List (Nat × List String) :=
  [(1, ["born", "to", "run"]), (2, ["born", "to", "run", "8x10"])]

/-- Concrete query used to witness the matcher theorem. -/
def queryBTR : List String := ["born", "to", "run", "8x10"]

/-- The content of a catalog row apart from its display title. -/
def songKey (e : CatalogSong) : Nat × String × Nat × List String :=
  (e.song_id, e.album, e.is_outtake, e.words)

/-- The content of an intermediate song record apart from its title. -/
def preKey (p : PreSong) : String × Nat × List String :=
  (p.album, p.is_outtake, p.words)

/-- Everything the pipeline outputs except song display titles. -/
def outputKey (o : PipelineOutput) :
    List (Nat × String × Nat × List String) × List ShowRow × List SetlistEntry :=
  (o.songs.map songKey, o.shows, o.setlists)

/-- A raw row whose venue is capitalized one way. -/
def rowC3a : SetlistRow := { emptyRow with date := "01/01/2000", venue := "The Club" }

/-- The same show listed with the venue in another casing. -/
def rowC3b : SetlistRow := { emptyRow with date := "01/01/2000", venue := "THE CLUB" }

/-- A raw row with an unpadded date string. -/
def rowC4a : SetlistRow := { emptyRow with date := "1/1/2000", venue := "X" }

/-- The same show listed with the zero-padded spelling of the date. -/
def rowC4b : SetlistRow := { emptyRow with date := "01/01/2000", venue := "X" }

/-- A raw setlist row carrying a negative position string. -/
def rowC8 : SetlistRow :=
  { emptyRow with date := "01/01/2000", venue := "V", song := "Thunder Road",
                  position := "-1" }

/-- A raw setlist row whose position does not parse (defaults to 0). -/
def rowC8w : SetlistRow :=
  { emptyRow with date := "01/01/2000", venue := "V", song := "Thunder Road",
                  position := "encore" }

/-- A one-song catalog index for linker examples. -/
def cmapTR : List (Nat × List String) := [(1, ["thunder", "road"])]

/-- A one-row session input (so the initial catalog is nonempty, as the
pandas code requires). -/
def sessQ : List SessionRow := [⟨some "q", none, "Album"⟩]

/-- Two setlist rows of one valid show whose song titles tokenize
identically and have equal length but canonicalize to different display
strings. -/
def rowsC7 : List SetlistRow :=
  [{ emptyRow with date := "01/01/2000", venue := "V", song := "a*b",
                   position := "1" },
   { emptyRow with date := "01/01/2000", venue := "V", song := "a b",
                   position := "2" }]

/-- A session row whose session name is whitespace-only. -/
def sessC10 : List SessionRow := [⟨some "Thunder Road", some " ", "Album"⟩]

/-- Setlist titles whose first-seen order disagrees with the natural order
of their token sequences. -/
def titlesC5 : List (Option String) := [some "zz", some "aa"]

end NormalizeData

namespace NormalizeData

/-! ### The greedy containment test decides ordered-subsequence containment -/

theorem is_subsequence_iff_sublist (n h : List String) :
    is_subsequence n h = true ↔ n.Sublist h := by
  induction h generalizing n with
  | nil =>
    cases n with
    | nil => simp [is_subsequence]
    | cons c cs => simp [is_subsequence]
  | cons x xs ih =>
    cases n with
    | nil => simp [is_subsequence]
    | cons c cs =>
      by_cases hc : c = x
      · subst hc
        rw [is_subsequence, if_pos rfl, ih]
        constructor
        · exact fun h1 => h1.cons₂ c
        · intro h1
          cases h1 with
          | cons _ h2 => exact (List.sublist_of_cons_sublist h2)
          | cons₂ _ h2 => exact h2
      · rw [is_subsequence, if_neg hc, ih]
        constructor
        · exact fun h1 => h1.cons x
        · intro h1
          cases h1 with
          | cons _ h2 => exact h2
          | cons₂ _ h2 => exact absurd rfl hc

/-! ### The head of the stable descending sort is the first maximum -/

theorem insertDesc_head (x : Nat × Nat) (l : List (Nat × Nat)) :
    (insertDesc x l).head? =
      some (match l.head? with
            | none => x
            | some y => if x.1 < y.1 then y else x) := by
  cases l with
  | nil => simp [insertDesc]
  | cons y ys =>
    by_cases h : x.1 < y.1
    · simp [insertDesc, h]
    · simp [insertDesc, h]

theorem sortDesc_head (l : List (Nat × Nat)) :
    (sortDesc l).head? = pickFirstMax l := by
  induction l with
  | nil => rfl
  | cons a rest ih =>
    show (insertDesc a (sortDesc rest)).head? = pickFirstMax (a :: rest)
    rw [insertDesc_head, ih]
    cases hm : pickFirstMax rest with
    | none => simp [pickFirstMax, hm]
    | some m =>
      by_cases hxm : a.1 < m.1 <;> simp [pickFirstMax, hm, hxm]

theorem pickFirstMax_eq_none {l : List (Nat × Nat)} :
    pickFirstMax l = none ↔ l = [] := by
  cases l with
  | nil => simp [pickFirstMax]
  | cons x xs =>
    simp only [pickFirstMax]
    cases pickFirstMax xs with
    | none => simp
    | some m =>
      by_cases h : x.1 < m.1 <;> simp [h]

theorem pickFirstMax_mem {l : List (Nat × Nat)} {m : Nat × Nat}
    (h : pickFirstMax l = some m) : m ∈ l := by
  induction l generalizing m with
  | nil => simp [pickFirstMax] at h
  | cons x xs ih =>
    rw [pickFirstMax] at h
    cases hm : pickFirstMax xs with
    | none =>
      rw [hm] at h
      injection h with h
      exact h ▸ List.mem_cons_self x xs
    | some m0 =>
      rw [hm] at h
      dsimp only at h
      by_cases hx : x.1 < m0.1
      · rw [if_pos hx] at h
        injection h with h
        exact List.mem_cons_of_mem _ (h ▸ ih hm)
      · rw [if_neg hx] at h
        injection h with h
        exact h ▸ List.mem_cons_self x xs

theorem pickFirstMax_max {l : List (Nat × Nat)} {m : Nat × Nat}
    (h : pickFirstMax l = some m) : ∀ x ∈ l, x.1 ≤ m.1 := by
  induction l generalizing m with
  | nil => simp
  | cons a xs ih =>
    rw [pickFirstMax] at h
    cases hm : pickFirstMax xs with
    | none =>
      rw [hm] at h
      injection h with h
      subst h
      intro x hx
      rcases List.mem_cons.mp hx with rfl | hx
      · exact le_refl _
      · rw [pickFirstMax_eq_none.mp hm] at hx
        simp at hx
    | some m0 =>
      rw [hm] at h
      dsimp only at h
      by_cases hlt : a.1 < m0.1
      · rw [if_pos hlt] at h
        injection h with h
        subst h
        intro x hx
        rcases List.mem_cons.mp hx with rfl | hx
        · exact le_of_lt hlt
        · exact ih hm x hx
      · rw [if_neg hlt] at h
        injection h with h
        subst h
        intro x hx
        rcases List.mem_cons.mp hx with rfl | hx
        · exact le_refl _
        · exact le_trans (ih hm x hx) (not_lt.mp hlt)

theorem pickFirstMax_tie {l : List (Nat × Nat)} {m : Nat × Nat}
    (hl : l.Pairwise (fun a b => a.2 < b.2)) (h : pickFirstMax l = some m) :
    ∀ x ∈ l, x.1 = m.1 → m.2 ≤ x.2 := by
  induction l generalizing m with
  | nil => simp
  | cons a xs ih =>
    rw [List.pairwise_cons] at hl
    rw [pickFirstMax] at h
    cases hm : pickFirstMax xs with
    | none =>
      rw [hm] at h
      injection h with h
      subst h
      intro x hx _
      rcases List.mem_cons.mp hx with rfl | hx
      · exact le_refl _
      · rw [pickFirstMax_eq_none.mp hm] at hx
        simp at hx
    | some m0 =>
      rw [hm] at h
      dsimp only at h
      by_cases hlt : a.1 < m0.1
      · rw [if_pos hlt] at h
        injection h with h
        subst h
        intro x hx hx1
        rcases List.mem_cons.mp hx with rfl | hx
        · exact absurd hx1 (ne_of_lt hlt)
        · exact ih hl.2 hm x hx hx1
      · rw [if_neg hlt] at h
        injection h with h
        subst h
        intro x hx _
        rcases List.mem_cons.mp hx with rfl | hx
        · exact le_refl _
        · exact le_of_lt (hl.1 x hx)

/-! ### The matcher claim -/

theorem mem_candidateList {Q : List String} {cmap : List (Nat × List String)}
    {x : Nat × Nat} :
    x ∈ candidateList Q cmap ↔
      ∃ p, p ∈ cmap ∧ p.2 ≠ [] ∧ is_subsequence p.2 Q = true ∧
        x = (p.2.length, p.1) := by
  simp only [candidateList, List.mem_map, List.mem_filter, decide_eq_true_eq]
  constructor
  · rintro ⟨p, ⟨hp, hcond⟩, rfl⟩
    exact ⟨p, hp, hcond.1, hcond.2, rfl⟩
  · rintro ⟨p, hp, h1, h2, rfl⟩
    exact ⟨p, ⟨hp, h1, h2⟩, rfl⟩

theorem candidateList_pairwise {Q : List String} {cmap : List (Nat × List String)}
    (h : cmap.Pairwise (fun a b => a.1 < b.1)) :
    (candidateList Q cmap).Pairwise (fun a b => a.2 < b.2) :=
  List.Pairwise.map _ (fun _ _ hab => hab) (List.Pairwise.filter _ h)

/-- C1: with a catalog index whose song ids strictly increase in iteration
order (as the builder produces), the matcher returns no match exactly when no
catalog entry with a nonempty token sequence is an ordered subsequence of the
query; otherwise it returns the id of a longest such entry, ties broken to
the first-seen (smallest) song id; the empty query always yields no match. -/
theorem C1_sequence_matcher_returns_longest_first_match
    (Q : List String) (cmap : List (Nat × List String))
    (hmono : cmap.Pairwise (fun a b => a.1 < b.1)) :
    MatcherSpec Q cmap ∧ (Q = [] → find_match_by_sequence Q cmap = none) := by
  constructor
  · unfold MatcherSpec
    cases hF : find_match_by_sequence Q cmap with
    | none =>
      intro p hp hne hsub
      by_cases hQ : Q = []
      · exact hne (List.sublist_nil.mp (hQ ▸ hsub))
      · rw [find_match_by_sequence, if_neg hQ] at hF
        cases hs : sortDesc (candidateList Q cmap) with
        | nil =>
          have hpm : pickFirstMax (candidateList Q cmap) = none := by
            rw [← sortDesc_head, hs]
            rfl
          have hcl : candidateList Q cmap = [] := pickFirstMax_eq_none.mp hpm
          have hmem : (p.2.length, p.1) ∈ candidateList Q cmap :=
            mem_candidateList.mpr
              ⟨p, hp, hne, (is_subsequence_iff_sublist _ _).mpr hsub, rfl⟩
          rw [hcl] at hmem
          simp at hmem
        | cons m tl =>
          rw [hs] at hF
          simp at hF
    | some sid =>
      by_cases hQ : Q = []
      · rw [find_match_by_sequence, if_pos hQ] at hF
        simp at hF
      · rw [find_match_by_sequence, if_neg hQ] at hF
        cases hs : sortDesc (candidateList Q cmap) with
        | nil =>
          rw [hs] at hF
          simp at hF
        | cons m tl =>
          rw [hs] at hF
          have hm : pickFirstMax (candidateList Q cmap) = some m := by
            rw [← sortDesc_head, hs]
            rfl
          have hsid : sid = m.2 := by
            simpa using hF.symm
          obtain ⟨p, hp, hne, hsubF, hx⟩ := mem_candidateList.mp (pickFirstMax_mem hm)
          have hsid2 : sid = p.1 := by rw [hsid, hx]
          have hlen : m.1 = p.2.length := by rw [hx]
          refine ⟨p.2, ?_, hne, (is_subsequence_iff_sublist _ _).mp hsubF, ?_, ?_⟩
          · rw [hsid2, Prod.mk.eta]
            exact hp
          · intro q hq hqne hqsub
            have hqmem : (q.2.length, q.1) ∈ candidateList Q cmap :=
              mem_candidateList.mpr
                ⟨q, hq, hqne, (is_subsequence_iff_sublist _ _).mpr hqsub, rfl⟩
            have := pickFirstMax_max hm _ hqmem
            rw [hlen] at this
            exact this
          · intro q hq hqne hqsub hqlen
            have hqmem : (q.2.length, q.1) ∈ candidateList Q cmap :=
              mem_candidateList.mpr
                ⟨q, hq, hqne, (is_subsequence_iff_sublist _ _).mpr hqsub, rfl⟩
            have := pickFirstMax_tie (candidateList_pairwise hmono) hm _ hqmem
              (by rw [hlen, hqlen])
            rw [← hsid] at this
            exact this
  · intro hQ
    rw [find_match_by_sequence, if_pos hQ]

/-- Witness for the matcher claim: the longest-match tie-break example of the
spec (the 4-token entry beats the 3-token one). -/
theorem C1_sequence_matcher_witness :
    (cmapBTR.Pairwise (fun a b => a.1 < b.1)) ∧
    (MatcherSpec queryBTR cmapBTR ∧
      (queryBTR = [] → find_match_by_sequence queryBTR cmapBTR = none)) :=
  ⟨by decide,
   C1_sequence_matcher_returns_longest_first_match queryBTR cmapBTR (by decide)⟩

/-! ### Catalog builder invariants -/

theorem sessionSongOf_some {seen : List (List String)} {r : SessionRow}
    {p : PreSong} (h : sessionSongOf seen r = some p) :
    p.words ∉ seen ∧ p.words ≠ [] ∧ p.title ≠ "" := by
  unfold sessionSongOf at h
  split at h
  · exact absurd h (by simp)
  next t =>
    split at h
    · exact absurd h (by simp)
    · dsimp only at h
      split at h
      · exact absurd h (by simp)
      next hwd =>
        split at h
        · exact absurd h (by simp)
        next hseen =>
          injection h with h
          subst h
          push_neg at hwd
          exact ⟨hseen, hwd.1, hwd.2⟩

theorem session_entries_aux_not_seen (rows : List SessionRow) :
    ∀ seen, ∀ p ∈ session_entries_aux rows seen, p.words ∉ seen := by
  induction rows with
  | nil =>
    intro seen p hp
    simp [session_entries_aux] at hp
  | cons r rs ih =>
    intro seen p hp
    rw [session_entries_aux] at hp
    cases hq : sessionSongOf seen r with
    | none =>
      rw [hq] at hp
      exact ih seen p hp
    | some q =>
      rw [hq] at hp
      rcases List.mem_cons.mp hp with rfl | hp
      · exact (sessionSongOf_some hq).1
      · intro hmem
        exact ih _ p hp (List.mem_cons_of_mem _ hmem)

theorem session_entries_aux_pairwise (rows : List SessionRow) :
    ∀ seen, (session_entries_aux rows seen).Pairwise
      (fun a b => a.words ≠ b.words) := by
  induction rows with
  | nil =>
    intro seen
    simp [session_entries_aux]
  | cons r rs ih =>
    intro seen
    rw [session_entries_aux]
    cases hq : sessionSongOf seen r with
    | none => exact ih seen
    | some q =>
      refine List.pairwise_cons.mpr ⟨?_, ih _⟩
      intro p hp
      have := session_entries_aux_not_seen rs _ p hp
      intro hEq
      exact this (hEq ▸ List.mem_cons_self _ _)

theorem session_entries_aux_shape (rows : List SessionRow) :
    ∀ seen, ∀ p ∈ session_entries_aux rows seen, p.words ≠ [] ∧ p.title ≠ "" := by
  induction rows with
  | nil =>
    intro seen p hp
    simp [session_entries_aux] at hp
  | cons r rs ih =>
    intro seen p hp
    rw [session_entries_aux] at hp
    cases hq : sessionSongOf seen r with
    | none =>
      rw [hq] at hp
      exact ih seen p hp
    | some q =>
      rw [hq] at hp
      rcases List.mem_cons.mp hp with rfl | hp
      · exact ⟨(sessionSongOf_some hq).2.1, (sessionSongOf_some hq).2.2⟩
      · exact ih _ p hp

/-- The well-formedness of the grouping map: keys are unknown nonempty token
sequences, groups are nonempty, and every member tokenizes to its key. -/
def GoodGroups (known : List (List String))
    (m : List (List String × List String)) : Prop :=
  ∀ g ∈ m, g.1 ∉ known ∧ g.1 ≠ [] ∧ g.2 ≠ [] ∧
    ∀ t ∈ g.2, preprocess_title_for_matching (some t) = g.1

theorem addToGroup_good {known : List (List String)}
    {m : List (List String × List String)} {key : List String} {title : String}
    (hm : GoodGroups known m) (hkey : preprocess_title_for_matching (some title) = key)
    (hku : key ∉ known) (hke : key ≠ []) :
    GoodGroups known (addToGroup key title m) := by
  induction m with
  | nil =>
    intro g hg
    simp only [addToGroup, List.mem_singleton] at hg
    subst hg
    refine ⟨hku, hke, by simp, ?_⟩
    intro t ht
    simp only [List.mem_singleton] at ht
    subst ht
    exact hkey
  | cons g0 gs ih =>
    intro g hg
    rw [addToGroup] at hg
    by_cases h0 : g0.1 = key
    · rw [if_pos h0] at hg
      rcases List.mem_cons.mp hg with rfl | hg
      · obtain ⟨u1, u2, u3, u4⟩ := hm g0 (List.mem_cons_self _ _)
        refine ⟨u1, u2, ?_, ?_⟩
        · split
          · exact u3
          · simp
        · intro t ht
          split at ht
          · exact u4 t ht
          · rcases List.mem_append.mp ht with ht | ht
            · exact u4 t ht
            · simp only [List.mem_singleton] at ht
              subst ht
              rw [hkey, h0]
      · exact hm g (List.mem_cons_of_mem _ hg)
    · rw [if_neg h0] at hg
      rcases List.mem_cons.mp hg with rfl | hg
      · exact hm g (List.mem_cons_self _ _)
      · exact ih (fun g1 hg1 => hm g1 (List.mem_cons_of_mem _ hg1)) g hg

theorem addToGroup_keys {m : List (List String × List String)}
    {key : List String} {title : String} :
    (addToGroup key title m).map Prod.fst =
      if key ∈ m.map Prod.fst then m.map Prod.fst
      else m.map Prod.fst ++ [key] := by
  induction m with
  | nil => simp [addToGroup]
  | cons g0 gs ih =>
    rw [addToGroup]
    by_cases h0 : g0.1 = key
    · rw [if_pos h0]
      have : key ∈ (g0 :: gs).map Prod.fst := by
        simp [h0.symm]
      rw [if_pos this]
      simp [h0]
    · rw [if_neg h0]
      have hks : (key ∈ (g0 :: gs).map Prod.fst) ↔ (key ∈ gs.map Prod.fst) := by
        simp only [List.map_cons, List.mem_cons]
        constructor
        · rintro (h | h)
          · exact absurd h.symm h0
          · exact h
        · exact Or.inr
      by_cases hk : key ∈ gs.map Prod.fst
      · rw [if_pos (hks.mpr hk)]
        simp only [List.map_cons]
        rw [ih, if_pos hk]
      · rw [if_neg (fun h => hk (hks.mp h))]
        simp only [List.map_cons, List.cons_append]
        rw [ih, if_neg hk]

theorem addToGroup_establish {m : List (List String × List String)}
    {key : List String} {title : String} :
    ∃ g ∈ addToGroup key title m, g.1 = key ∧ title ∈ g.2 := by
  induction m with
  | nil => exact ⟨(key, [title]), by simp [addToGroup]⟩
  | cons g0 gs ih =>
    rw [addToGroup]
    by_cases h0 : g0.1 = key
    · rw [if_pos h0]
      refine ⟨(g0.1, if title ∈ g0.2 then g0.2 else g0.2 ++ [title]), List.mem_cons_self _ _, h0, ?_⟩
      split
      · assumption
      · simp
    · rw [if_neg h0]
      obtain ⟨g, hg, h1, h2⟩ := ih
      exact ⟨g, List.mem_cons_of_mem _ hg, h1, h2⟩

theorem addToGroup_preserve {m : List (List String × List String)}
    {key k0 : List String} {title s0 : String}
    (h : ∃ g ∈ m, g.1 = k0 ∧ s0 ∈ g.2) :
    ∃ g ∈ addToGroup key title m, g.1 = k0 ∧ s0 ∈ g.2 := by
  induction m with
  | nil => simp at h
  | cons g0 gs ih =>
    rw [addToGroup]
    obtain ⟨g, hg, h1, h2⟩ := h
    by_cases h0 : g0.1 = key
    · rw [if_pos h0]
      rcases List.mem_cons.mp hg with rfl | hg
      · refine ⟨(g.1, if title ∈ g.2 then g.2 else g.2 ++ [title]), List.mem_cons_self _ _, h1, ?_⟩
        split
        · exact h2
        · exact List.mem_append_left _ h2
      · exact ⟨g, List.mem_cons_of_mem _ hg, h1, h2⟩
    · rw [if_neg h0]
      rcases List.mem_cons.mp hg with rfl | hg
      · exact ⟨g, List.mem_cons_self _ _, h1, h2⟩
      · obtain ⟨g2, hg2, hh1, hh2⟩ := ih ⟨g, hg, h1, h2⟩
        exact ⟨g2, List.mem_cons_of_mem _ hg2, hh1, hh2⟩

theorem missingStep_good {known : List (List String)}
    {m : List (List String × List String)} {t : Option String}
    (hm : GoodGroups known m) : GoodGroups known (missingStep known m t) := by
  unfold missingStep
  split
  · exact hm
  next s =>
    split
    · exact hm
    · dsimp only
      split
      · exact hm
      · split
        · exact hm
        next h2 h3 =>
          exact addToGroup_good hm rfl h3 h2

theorem missingStep_keys_nodup {known : List (List String)}
    {m : List (List String × List String)} {t : Option String}
    (hm : (m.map Prod.fst).Nodup) :
    ((missingStep known m t).map Prod.fst).Nodup := by
  unfold missingStep
  split
  · exact hm
  next s =>
    split
    · exact hm
    · dsimp only
      split
      · exact hm
      · split
        · exact hm
        · rw [addToGroup_keys]
          split
          · exact hm
          next hk =>
            rw [List.nodup_append]
            refine ⟨hm, List.nodup_singleton _, ?_⟩
            intro a ha hb
            simp only [List.mem_singleton] at hb
            subst hb
            exact hk ha

theorem missingStep_preserve {known : List (List String)}
    {m : List (List String × List String)} {t : Option String}
    {k0 : List String} {s0 : String}
    (h : ∃ g ∈ m, g.1 = k0 ∧ s0 ∈ g.2) :
    ∃ g ∈ missingStep known m t, g.1 = k0 ∧ s0 ∈ g.2 := by
  unfold missingStep
  split
  · exact h
  next s =>
    split
    · exact h
    · dsimp only
      split
      · exact h
      · split
        · exact h
        · exact addToGroup_preserve h

theorem foldl_missingStep_good {known : List (List String)}
    (l : List (Option String)) :
    ∀ m, GoodGroups known m → GoodGroups known (l.foldl (missingStep known) m) := by
  induction l with
  | nil => exact fun m hm => hm
  | cons t ts ih => exact fun m hm => ih _ (missingStep_good hm)

theorem foldl_missingStep_nodup {known : List (List String)}
    (l : List (Option String)) :
    ∀ m, (m.map Prod.fst).Nodup →
      (((l.foldl (missingStep known) m)).map Prod.fst).Nodup := by
  induction l with
  | nil => exact fun m hm => hm
  | cons t ts ih => exact fun m hm => ih _ (missingStep_keys_nodup hm)

theorem foldl_missingStep_preserve {known : List (List String)}
    (l : List (Option String)) {k0 : List String} {s0 : String} :
    ∀ m, (∃ g ∈ m, g.1 = k0 ∧ s0 ∈ g.2) →
      ∃ g ∈ l.foldl (missingStep known) m, g.1 = k0 ∧ s0 ∈ g.2 := by
  induction l with
  | nil => exact fun m hm => hm
  | cons t ts ih => exact fun m hm => ih _ (missingStep_preserve hm)

theorem missing_songs_map_good (known : List (List String))
    (titles : List (Option String)) :
    GoodGroups known (missing_songs_map known titles) :=
  foldl_missingStep_good _ _ (by intro g hg; simp at hg)

theorem missing_songs_map_nodup (known : List (List String))
    (titles : List (Option String)) :
    ((missing_songs_map known titles).map Prod.fst).Nodup :=
  foldl_missingStep_nodup _ _ (by simp)

/-! ### The display canonicalizer never returns the empty string -/

theorem ite_empty_default_ne_empty (x : String) :
    (if x = "" then "Unknown Title" else x) ≠ "" := by
  split
  · simp
  next h => exact h

theorem get_canonical_display_title_ne_empty (t : Option String) :
    get_canonical_display_title t ≠ "" := by
  cases t with
  | none => simp [get_canonical_display_title]
  | some s =>
    rw [get_canonical_display_title]
    by_cases hs : s = ""
    · rw [if_pos hs]
      simp
    · rw [if_neg hs]
      exact ite_empty_default_ne_empty _

/-! ### The representative of a cover group is a shortest member -/

theorem pyMin_foldl_mem (rest : List String) :
    ∀ acc : String,
      rest.foldl (fun a x => if x.length < a.length then x else a) acc ∈ acc :: rest := by
  induction rest with
  | nil =>
    intro acc
    simp
  | cons x xs ih =>
    intro acc
    rw [List.foldl_cons]
    rcases List.mem_cons.mp (ih (if x.length < acc.length then x else acc)) with h | h
    · rw [h]
      split
      · exact List.mem_cons_of_mem _ (List.mem_cons_self _ _)
      · exact List.mem_cons_self _ _
    · exact List.mem_cons_of_mem _ (List.mem_cons_of_mem _ h)

theorem pyMin_foldl_min (rest : List String) :
    ∀ acc : String,
      (rest.foldl (fun a x => if x.length < a.length then x else a) acc).length ≤
        acc.length ∧
      ∀ x ∈ rest,
        (rest.foldl (fun a x => if x.length < a.length then x else a) acc).length ≤
          x.length := by
  induction rest with
  | nil =>
    intro acc
    exact ⟨le_refl _, by simp⟩
  | cons x xs ih =>
    intro acc
    rw [List.foldl_cons]
    obtain ⟨h1, h2⟩ := ih (if x.length < acc.length then x else acc)
    have hfa : (if x.length < acc.length then x else acc).length ≤ acc.length := by
      split
      next hlt => exact le_of_lt hlt
      · exact le_refl _
    have hfx : (if x.length < acc.length then x else acc).length ≤ x.length := by
      split
      · exact le_refl _
      next hlt => exact not_lt.mp hlt
    refine ⟨le_trans h1 hfa, ?_⟩
    intro y hy
    rcases List.mem_cons.mp hy with rfl | hy
    · exact le_trans h1 hfx
    · exact h2 y hy

theorem pyMin_mem {ts : List String} (h : ts ≠ []) : pyMin ts ∈ ts := by
  cases ts with
  | nil => exact absurd rfl h
  | cons t rest => exact pyMin_foldl_mem rest t

theorem pyMin_min {ts : List String} : ∀ x ∈ ts, (pyMin ts).length ≤ x.length := by
  cases ts with
  | nil => simp
  | cons t rest =>
    intro x hx
    obtain ⟨h1, h2⟩ := pyMin_foldl_min rest t
    rcases List.mem_cons.mp hx with rfl | hx
    · exact h1
    · exact h2 x hx

/-! ### The cover-creation loop keeps every group, in map order -/

theorem cover_entries_eq_map (reorder : List String → List String)
    (m : List (List String × List String)) :
    cover_entries reorder m =
      m.map (fun g =>
        { title := get_canonical_display_title (some (pyMin (reorder g.2))),
          album := "Cover", is_outtake := 0, words := g.1 }) := by
  induction m with
  | nil => rfl
  | cons g gs ih =>
    show List.filterMap _ (g :: gs) = _
    rw [List.filterMap_cons]
    dsimp only
    rw [if_neg (get_canonical_display_title_ne_empty _)]
    rw [List.map_cons]
    exact congrArg _ ih

/-! ### First-occurrence deduplication facts -/

theorem dedupByWords_id (l : List PreSong) :
    ∀ seen, l.Pairwise (fun a b => a.words ≠ b.words) →
      (∀ p ∈ l, p.words ∉ seen) → dedupByWords l seen = l := by
  induction l with
  | nil =>
    intro seen _ _
    rfl
  | cons p ps ih =>
    intro seen hpw hns
    rw [dedupByWords, if_neg (hns p (List.mem_cons_self _ _))]
    congr 1
    refine ih _ (List.pairwise_cons.mp hpw).2 ?_
    intro q hq hmem
    rcases List.mem_cons.mp hmem with h | h
    · exact (List.pairwise_cons.mp hpw).1 q hq h.symm
    · exact hns q (List.mem_cons_of_mem _ hq) h

theorem dedupByWords_subset (l : List PreSong) :
    ∀ seen, ∀ p ∈ dedupByWords l seen, p ∈ l := by
  induction l with
  | nil =>
    intro seen p hp
    simp [dedupByWords] at hp
  | cons q qs ih =>
    intro seen p hp
    rw [dedupByWords] at hp
    split at hp
    · exact List.mem_cons_of_mem _ (ih _ p hp)
    · rcases List.mem_cons.mp hp with rfl | hp
      · exact List.mem_cons_self _ _
      · exact List.mem_cons_of_mem _ (ih _ p hp)

/-! ### Enumeration facts -/

theorem snd_mem_enumFrom {α : Type} {x : Nat × α} (l : List α) :
    ∀ n, x ∈ l.enumFrom n → x.2 ∈ l := by
  induction l with
  | nil =>
    intro n h
    simp [List.enumFrom] at h
  | cons a as ih =>
    intro n h
    rw [List.enumFrom] at h
    rcases List.mem_cons.mp h with rfl | h
    · exact List.mem_cons_self _ _
    · exact List.mem_cons_of_mem _ (ih _ h)

theorem enumFrom_map_fst_range {α : Type} (l : List α) :
    ∀ n, (l.enumFrom n).map Prod.fst = List.range' n l.length := by
  induction l with
  | nil =>
    intro n
    rfl
  | cons a as ih =>
    intro n
    rw [List.enumFrom, List.map_cons, ih]
    rfl

theorem pairwise_enumFrom {α : Type} {R : α → α → Prop} {l : List α}
    (hl : l.Pairwise R) :
    ∀ n, (l.enumFrom n).Pairwise (fun a b => R a.2 b.2) := by
  induction hl with
  | nil =>
    intro n
    simp [List.enumFrom]
  | @cons a as hhead htail ih =>
    intro n
    rw [List.enumFrom]
    refine List.pairwise_cons.mpr ⟨?_, ih (n + 1)⟩
    intro b hb
    exact hhead _ (snd_mem_enumFrom _ _ hb)

/-! ### The catalog claim -/

theorem combined_pairwise (reorder : List String → List String)
    (sessions : List SessionRow) (titles : List (Option String)) :
    (session_entries sessions ++
      cover_entries reorder (missing_songs_map
        ((session_entries sessions).map (fun p => p.words)) titles)).Pairwise
      (fun a b => a.words ≠ b.words) := by
  rw [List.pairwise_append]
  refine ⟨session_entries_aux_pairwise _ _, ?_, ?_⟩
  · rw [cover_entries_eq_map, List.pairwise_map]
    have hnd := missing_songs_map_nodup
      ((session_entries sessions).map (fun p => p.words)) titles
    rw [List.Nodup, List.pairwise_map] at hnd
    exact hnd.imp (fun h => h)
  · intro p hp q hq
    have hq2 : q.words ∉ ((session_entries sessions).map (fun p => p.words)) := by
      rw [cover_entries_eq_map] at hq
      obtain ⟨g, hg, rfl⟩ := List.mem_map.mp hq
      exact (missing_songs_map_good _ _ g hg).1
    intro hEq
    exact hq2 (hEq ▸ List.mem_map_of_mem _ hp)

theorem create_final_songs_table_unfold (reorder : List String → List String)
    (sessions : List SessionRow) (titles : List (Option String)) :
    create_final_songs_table reorder sessions titles =
      (((session_entries sessions ++ cover_entries reorder
            (missing_songs_map ((session_entries sessions).map (fun p => p.words))
              titles)).enumFrom 1).map
          (fun ip =>
            { song_id := ip.1, title := ip.2.title, album := ip.2.album,
              is_outtake := ip.2.is_outtake, words := ip.2.words }),
       ((session_entries sessions ++ cover_entries reorder
            (missing_songs_map ((session_entries sessions).map (fun p => p.words))
              titles)).enumFrom 1).map (fun ip => (ip.1, ip.2.words))) := by
  unfold create_final_songs_table
  dsimp only
  rw [dedupByWords_id _ [] (combined_pairwise reorder sessions titles)
    (by intro p hp h; simp at h)]

/-- C2: the catalog built by `create_final_songs_table` has pairwise distinct
token sequences, its song ids are the dense 1-based sequence in creation
order, and it is exactly the session-derived entries followed by the
setlist-derived cover entries. -/
theorem C2_catalog_unique_dense_sessions_first (sessions : List SessionRow)
    (titles : List (Option String)) :
    ((create_final_songs_table id sessions titles).1.Pairwise
      (fun a b => a.words ≠ b.words)) ∧
    ((create_final_songs_table id sessions titles).1.map (fun e => e.song_id) =
      List.range' 1 (create_final_songs_table id sessions titles).1.length) ∧
    ((create_final_songs_table id sessions titles).1.map
        (fun e => (e.title, e.album, e.is_outtake, e.words)) =
      (session_entries sessions ++
        cover_entries id (missing_songs_map
          ((session_entries sessions).map (fun p => p.words)) titles)).map
        (fun p => (p.title, p.album, p.is_outtake, p.words))) := by
  rw [create_final_songs_table_unfold]
  dsimp only
  refine ⟨?_, ?_, ?_⟩
  · rw [List.pairwise_map]
    exact (pairwise_enumFrom (combined_pairwise id sessions titles) 1).imp
      (fun h => h)
  · rw [List.map_map, List.length_map]
    have h1 := enumFrom_map_fst_range
      (session_entries sessions ++ cover_entries id (missing_songs_map
        ((session_entries sessions).map (fun p => p.words)) titles)) 1
    have h2 : ((session_entries sessions ++ cover_entries id (missing_songs_map
        ((session_entries sessions).map (fun p => p.words)) titles)).enumFrom
          1).length =
        (session_entries sessions ++ cover_entries id (missing_songs_map
          ((session_entries sessions).map (fun p => p.words)) titles)).length := by
      rw [List.enumFrom_length]
    rw [h2]
    exact h1
  · rw [List.map_map]
    have h2 : (((session_entries sessions ++ cover_entries id (missing_songs_map
          ((session_entries sessions).map (fun p => p.words))
            titles)).enumFrom 1).map Prod.snd).map
          (fun p : PreSong => (p.title, p.album, p.is_outtake, p.words)) =
        (session_entries sessions ++ cover_entries id (missing_songs_map
          ((session_entries sessions).map (fun p => p.words)) titles)).map
          (fun p => (p.title, p.album, p.is_outtake, p.words)) := by
      rw [List.enumFrom_map_snd]
    rw [List.map_map] at h2
    exact h2

/-! ### The builder's matching map has strictly increasing song ids (so the
matcher theorem's hypothesis holds for every index the program builds) -/

theorem fst_ge_enumFrom {α : Type} {x : Nat × α} (l : List α) :
    ∀ n, x ∈ l.enumFrom n → n ≤ x.1 := by
  induction l with
  | nil =>
    intro n h
    simp [List.enumFrom] at h
  | cons a as ih =>
    intro n h
    rw [List.enumFrom] at h
    rcases List.mem_cons.mp h with rfl | h
    · exact le_refl _
    · exact le_trans (Nat.le_succ _) (ih _ h)

theorem enumFrom_fst_pairwise {α : Type} (l : List α) :
    ∀ n, (l.enumFrom n).Pairwise (fun a b => a.1 < b.1) := by
  induction l with
  | nil =>
    intro n
    simp [List.enumFrom]
  | cons a as ih =>
    intro n
    rw [List.enumFrom]
    refine List.pairwise_cons.mpr ⟨?_, ih (n + 1)⟩
    intro b hb
    exact lt_of_lt_of_le (Nat.lt_succ_self n) (fst_ge_enumFrom _ _ hb)

theorem matching_map_ids_increasing (reorder : List String → List String)
    (sessions : List SessionRow) (titles : List (Option String)) :
    (create_final_songs_table reorder sessions titles).2.Pairwise
      (fun a b => a.1 < b.1) := by
  rw [create_final_songs_table_unfold]
  dsimp only
  rw [List.pairwise_map]
  exact (enumFrom_fst_pairwise _ 1).imp (fun h => h)

/-! ### Show resolver invariants -/

/-- Invariant of the show-identification loop: every minted show's
(normalized date, venue) key is registered, the keys of minted shows are
pairwise distinct, the original-key map registers exactly one entry per
minted show (in order), and every registered original key normalizes to a
registered show key. -/
def ResolveInv (st : ResolveState) : Prop :=
  (∀ s ∈ st.shows, ((s.date, s.venue) : Option String × String) ∈ st.show_keys) ∧
  st.shows.Pairwise (fun a b => ¬(a.date = b.date ∧ a.venue = b.venue)) ∧
  st.origMap.map Prod.snd = st.shows.map (fun s => s.show_id) ∧
  (∀ e ∈ st.origMap,
    (((parse_mdY e.1.1).map formatDate, e.1.2) : Option String × String) ∈ st.show_keys)

theorem resolveStep_inv (st : ResolveState) (row : SetlistRow)
    (h : ResolveInv st) : ResolveInv (resolveStep st row) := by
  obtain ⟨h1, h2, h3, h4⟩ := h
  rw [resolveStep]
  by_cases hblank : pyStrip row.date = "" ∨ pyStrip row.venue = ""
  · rw [if_pos hblank]
    exact ⟨h1, h2, h3, h4⟩
  · rw [if_neg hblank]
    push_neg at hblank
    obtain ⟨hD, hV⟩ := hblank
    dsimp only
    rw [if_pos hV]
    by_cases hkey :
        (((parse_mdY (pyStrip row.date)).map formatDate, pyStrip row.venue) :
          Option String × String) ∈ st.show_keys
    · rw [if_pos hkey]
      exact ⟨h1, h2, h3, h4⟩
    · rw [if_neg hkey]
      have hfresh : (pyStrip row.date, pyStrip row.venue) ∉ st.origMap.map Prod.fst := by
        intro hin
        obtain ⟨e, he, heq⟩ := List.mem_map.mp hin
        have := h4 e he
        rw [heq] at this
        exact hkey this
      rw [if_neg hfresh]
      refine ⟨?_, ?_, ?_, ?_⟩
      · intro s hs
        rcases List.mem_append.mp hs with hs | hs
        · exact List.mem_cons_of_mem _ (h1 s hs)
        · simp only [List.mem_singleton] at hs
          subst hs
          exact List.mem_cons_self _ _
      · rw [List.pairwise_append]
        refine ⟨h2, List.pairwise_singleton _ _, ?_⟩
        intro a ha b hb
        simp only [List.mem_singleton] at hb
        subst hb
        rintro ⟨hd, hv⟩
        apply hkey
        have := h1 a ha
        rw [hd, hv] at this
        exact this
      · simp only [List.map_append, List.map_cons, List.map_nil]
        rw [h3]
      · intro e he
        rcases List.mem_append.mp he with he | he
        · exact List.mem_cons_of_mem _ (h4 e he)
        · simp only [List.mem_singleton] at he
          subst he
          exact List.mem_cons_self _ _

theorem foldl_resolveStep_inv (rows : List SetlistRow) :
    ∀ st, ResolveInv st → ResolveInv (rows.foldl resolveStep st) := by
  induction rows with
  | nil => exact fun st h => h
  | cons r rs ih => exact fun st h => ih _ (resolveStep_inv _ r h)

theorem resolveShows_inv (rows : List SetlistRow) :
    ResolveInv (resolveShows rows) :=
  foldl_resolveStep_inv rows _ ⟨by simp, by simp, rfl, by simp⟩

/-- C3 counterexample: two raw rows with the same normalized date whose
venues agree up to casing do NOT collapse: the resolver mints two distinct
shows, because the venue part of the identity key is compared
case-sensitively (only whitespace-trimmed, never lowercased). -/
theorem C3_counterexample_case_sensitive_venue :
    (pyStrip rowC3a.venue ≠ pyStrip rowC3b.venue ∧
      lowerStr (pyStrip rowC3a.venue) = lowerStr (pyStrip rowC3b.venue)) ∧
    (resolveShows [rowC3a, rowC3b]).shows.map
        (fun s => (s.show_id, s.date, s.venue)) =
      [(1, some "2000-01-01", "The Club"), (2, some "2000-01-01", "THE CLUB")] := by
  constructor
  · constructor
    · decide
    · decide
  · rfl

/-- C3 amended: rows collapse to a single show exactly per (normalized date,
trimmed venue) key with the venue compared case-sensitively: the minted
shows always have pairwise distinct (date, venue) keys, so all raw rows
sharing one key are represented by a single show. -/
theorem C3_show_dedup_per_exact_key (rows : List SetlistRow) :
    (resolveShows rows).shows.Pairwise
      (fun a b => ¬(a.date = b.date ∧ a.venue = b.venue)) :=
  (resolveShows_inv rows).2.1

/-- C4 counterexample: a duplicate-key row is dropped WITHOUT its original
(pre-normalization) date/venue strings being registered: the two spellings
"1/1/2000" and "01/01/2000" normalize to the same show key, only the first
spelling is registered in the original-key map, and looking up the second
row's own strings fails. -/
theorem C4_counterexample_duplicate_not_registered :
    (resolveShows [rowC4a, rowC4b]).shows.length = 1 ∧
    (pyStrip rowC4b.date, pyStrip rowC4b.venue) ≠
      (pyStrip rowC4a.date, pyStrip rowC4a.venue) ∧
    alookup (resolveShows [rowC4a, rowC4b]).origMap ("1/1/2000", "X") = some 1 ∧
    alookup (resolveShows [rowC4a, rowC4b]).origMap ("01/01/2000", "X") = none := by
  refine ⟨rfl, ?_, rfl, rfl⟩
  decide

/-- C4 amended: the original-key map registers exactly one (stripped)
original (date, venue) pair per minted show, in minting order, pointing at
that show's id; duplicate-key rows are dropped and register nothing. -/
theorem C4_original_key_map_one_entry_per_show (rows : List SetlistRow) :
    (resolveShows rows).origMap.map Prod.snd =
      (resolveShows rows).shows.map (fun s => s.show_id) ∧
    (resolveShows rows).origMap.length = (resolveShows rows).shows.length := by
  refine ⟨(resolveShows_inv rows).2.2.1, ?_⟩
  have h := (resolveShows_inv rows).2.2.1
  have := congrArg List.length h
  simpa using this

/-! ### Grouping completeness -/

theorem mem_dedupFirstAux (l : List (Option String)) :
    ∀ seen x, x ∈ dedupFirstAux l seen ↔ x ∈ l ∧ x ∉ seen := by
  induction l with
  | nil =>
    intro seen x
    simp [dedupFirstAux]
  | cons t ts ih =>
    intro seen x
    rw [dedupFirstAux]
    by_cases ht : t ∈ seen
    · rw [if_pos ht, ih]
      constructor
      · rintro ⟨hx, hs⟩
        exact ⟨List.mem_cons_of_mem _ hx, hs⟩
      · rintro ⟨hx, hs⟩
        rcases List.mem_cons.mp hx with rfl | hx
        · exact absurd ht hs
        · exact ⟨hx, hs⟩
    · rw [if_neg ht]
      constructor
      · intro hx
        rcases List.mem_cons.mp hx with rfl | hx
        · exact ⟨List.mem_cons_self _ _, ht⟩
        · rw [ih] at hx
          refine ⟨List.mem_cons_of_mem _ hx.1, ?_⟩
          intro hs
          exact hx.2 (List.mem_cons_of_mem _ hs)
      · rintro ⟨hx, hs⟩
        rcases List.mem_cons.mp hx with rfl | hx
        · exact List.mem_cons_self _ _
        · by_cases hxt : x = t
          · subst hxt
            exact List.mem_cons_self _ _
          · refine List.mem_cons_of_mem _ ?_
            rw [ih]
            refine ⟨hx, ?_⟩
            intro hmem
            rcases List.mem_cons.mp hmem with h | h
            · exact hxt h
            · exact hs h

theorem foldl_missingStep_establish {known : List (List String)}
    (l : List (Option String)) {s : String} (hne : s ≠ "")
    (hws : preprocess_title_for_matching (some s) ≠ [])
    (hnk : preprocess_title_for_matching (some s) ∉ known) :
    ∀ m, some s ∈ l →
      ∃ g ∈ l.foldl (missingStep known) m,
        g.1 = preprocess_title_for_matching (some s) ∧ s ∈ g.2 := by
  induction l with
  | nil =>
    intro m hs
    simp at hs
  | cons t ts ih =>
    intro m hs
    rw [List.foldl_cons]
    rcases List.mem_cons.mp hs with heq | hmem
    · have hstep : missingStep known m t =
          addToGroup (preprocess_title_for_matching (some s)) s m := by
        rw [← heq]
        simp only [missingStep]
        rw [if_neg hne, if_neg hws, if_neg hnk]
      rw [hstep]
      exact foldl_missingStep_preserve ts _ addToGroup_establish
    · exact ih _ hmem

theorem missing_songs_map_complete {known : List (List String)}
    {titles : List (Option String)} {s : String}
    (hs : some s ∈ titles) (hne : s ≠ "")
    (hws : preprocess_title_for_matching (some s) ≠ [])
    (hnk : preprocess_title_for_matching (some s) ∉ known) :
    ∃ g ∈ missing_songs_map known titles,
      g.1 = preprocess_title_for_matching (some s) ∧ s ∈ g.2 := by
  unfold missing_songs_map dedupFirst
  apply foldl_missingStep_establish _ hne hws hnk
  rw [mem_dedupFirstAux]
  exact ⟨hs, by simp⟩

/-- C5 counterexample: covers receive song ids in first-appearance order of
their token sequence, not in the natural order of the grouping keys: "zz",
seen first, gets the smaller id although its token sequence sorts after that
of "aa" in the natural order. -/
theorem C5_counterexample_ids_not_in_natural_order :
    (create_final_songs_table id sessQ titlesC5).1.map
        (fun e => (e.song_id, e.words)) =
      [(1, [("q" : String)]), (2, ["zz"]), (3, ["aa"])] ∧
    ("aa" : String) < "zz" := by
  refine ⟨rfl, ?_⟩
  rw [String.lt_iff_toList_lt]
  decide

/-- C5 amended: distinct raw setlist titles whose token sequence is unknown
are grouped by token sequence (first-appearance order); each group is
nonempty, all members tokenize to the group key, the representative is a
member of minimal raw length, and every group yields exactly one cover entry
(album "Cover", outtake flag 0, words = key, display title canonicalized
from the representative) in map order. -/
theorem C5_cover_grouping_and_representative (known : List (List String))
    (titles : List (Option String)) :
    (∀ g ∈ missing_songs_map known titles,
      g.1 ∉ known ∧ g.1 ≠ [] ∧ g.2 ≠ [] ∧
        ∀ t ∈ g.2, preprocess_title_for_matching (some t) = g.1) ∧
    (∀ g ∈ missing_songs_map known titles,
      pyMin g.2 ∈ g.2 ∧ ∀ t ∈ g.2, (pyMin g.2).length ≤ t.length) ∧
    (cover_entries id (missing_songs_map known titles) =
      (missing_songs_map known titles).map (fun g =>
        { title := get_canonical_display_title (some (pyMin g.2)),
          album := "Cover", is_outtake := 0, words := g.1 })) ∧
    (∀ s : String, some s ∈ titles → s ≠ "" →
      preprocess_title_for_matching (some s) ≠ [] →
      preprocess_title_for_matching (some s) ∉ known →
      ∃ g ∈ missing_songs_map known titles,
        g.1 = preprocess_title_for_matching (some s) ∧ s ∈ g.2) := by
  refine ⟨missing_songs_map_good known titles, ?_, ?_, ?_⟩
  · intro g hg
    have hne := (missing_songs_map_good known titles g hg).2.2.1
    exact ⟨pyMin_mem hne, pyMin_min⟩
  · exact cover_entries_eq_map id _
  · intro s hs h1 h2 h3
    exact missing_songs_map_complete hs h1 h2 h3

/-! ### The contextual BITUSA routing -/

/-- C6 counterexample: when the catalog lacks the acoustic entry but has the
standard one, the contextual logic is NOT skipped: a standard-BITUSA-token
row on a Reunion-aliased tour is still routed contextually (to the standard
id), rather than falling through to generic sequence matching. -/
theorem C6_counterexample_contextual_not_skipped :
    findBitusaIds [(1, standard_bitusa_words)] = (some 1, none) ∧
    chooseSongId standard_bitusa_words (some 1) none "Reunion Tour"
        [(1, standard_bitusa_words)] =
      (some 1, "Contextual (Standard BITUSA)") ∧
    (chooseSongId standard_bitusa_words (some 1) none "Reunion Tour"
        [(1, standard_bitusa_words)]).2 ≠ "Sequence Match (Success)" := by
  refine ⟨by decide, by decide, by decide⟩

/-- C6 amended: when both the standard and alternate ids are present, a row
whose tokens equal the monitored sequence routes to the alternate id exactly
when the tour name is in the Reunion alias set (compared case-insensitively)
and to the standard id otherwise, before any generic matching; when only the
alternate id is missing, the contextual logic still fires and routes to the
standard id; generic sequence matching runs only when the standard id is
missing or the tokens differ from the monitored sequence. -/
theorem C6_contextual_routing (ws : List String) (sid rid : Nat)
    (anyReu : Option Nat) (tour : String) (cmap : List (Nat × List String)) :
    (ws = standard_bitusa_words → lowerStr tour ∈ REUNION_TOUR_RAW_NAMES →
      chooseSongId ws (some sid) (some rid) tour cmap =
        (some rid, "Contextual (Reunion Tour)")) ∧
    (ws = standard_bitusa_words → lowerStr tour ∉ REUNION_TOUR_RAW_NAMES →
      chooseSongId ws (some sid) (some rid) tour cmap =
        (some sid, "Contextual (Standard BITUSA)")) ∧
    (ws = standard_bitusa_words →
      chooseSongId ws (some sid) none tour cmap =
        (some sid, "Contextual (Standard BITUSA)")) ∧
    (chooseSongId ws none anyReu tour cmap =
      match find_match_by_sequence ws cmap with
      | some s2 => (some s2, "Sequence Match (Success)")
      | none => (none, "Sequence Match (Fail)")) ∧
    (ws ≠ standard_bitusa_words →
      chooseSongId ws (some sid) anyReu tour cmap =
        match find_match_by_sequence ws cmap with
        | some s2 => (some s2, "Sequence Match (Success)")
        | none => (none, "Sequence Match (Fail)")) := by
  refine ⟨?_, ?_, ?_, ?_, ?_⟩
  · intro hws htour
    unfold chooseSongId
    rw [if_pos ⟨hws, by simp⟩, if_pos ⟨htour, by simp⟩]
  · intro hws htour
    unfold chooseSongId
    rw [if_pos ⟨hws, by simp⟩, if_neg (fun hc => htour hc.1)]
  · intro hws
    unfold chooseSongId
    rw [if_pos ⟨hws, by simp⟩, if_neg (fun hc => hc.2 rfl)]
  · unfold chooseSongId
    rw [if_neg (fun hc => hc.2 rfl)]
  · intro hws
    unfold chooseSongId
    rw [if_neg (fun hc => hws hc.1)]

/-! ### Reorder-invariance of everything but cover titles -/

theorem enumFrom_map_pair (l1 : List PreSong) :
    ∀ (l2 : List PreSong) (n : Nat), l1.map preKey = l2.map preKey →
      (l1.enumFrom n).map (fun ip => (ip.1, preKey ip.2)) =
        (l2.enumFrom n).map (fun ip => (ip.1, preKey ip.2)) := by
  induction l1 with
  | nil =>
    intro l2 n h
    cases l2 with
    | nil => rfl
    | cons q qs => simp at h
  | cons p ps ih =>
    intro l2 n h
    cases l2 with
    | nil => simp at h
    | cons q qs =>
      simp only [List.map_cons, List.cons.injEq] at h
      obtain ⟨hpq, hrest⟩ := h
      rw [List.enumFrom, List.enumFrom]
      simp only [List.map_cons]
      rw [hpq]
      exact congrArg _ (ih qs (n + 1) hrest)

theorem create_final_songs_table_reorder_inv (r1 r2 : List String → List String)
    (sessions : List SessionRow) (titles : List (Option String)) :
    (create_final_songs_table r1 sessions titles).1.map songKey =
      (create_final_songs_table r2 sessions titles).1.map songKey ∧
    (create_final_songs_table r1 sessions titles).2 =
      (create_final_songs_table r2 sessions titles).2 := by
  rw [create_final_songs_table_unfold r1, create_final_songs_table_unfold r2]
  dsimp only
  have hcov : (session_entries sessions ++ cover_entries r1
        (missing_songs_map ((session_entries sessions).map (fun p => p.words))
          titles)).map preKey =
      (session_entries sessions ++ cover_entries r2
        (missing_songs_map ((session_entries sessions).map (fun p => p.words))
          titles)).map preKey := by
    rw [List.map_append, List.map_append]
    refine congrArg _ ?_
    rw [cover_entries_eq_map, cover_entries_eq_map, List.map_map, List.map_map]
    rfl
  have hpair := enumFrom_map_pair _ _ 1 hcov
  constructor
  · rw [List.map_map, List.map_map]
    exact hpair
  · have := congrArg
      (List.map (fun x : Nat × (String × Nat × List String) => (x.1, x.2.2.2))) hpair
    rw [List.map_map, List.map_map] at this
    exact this

/-- C7 counterexample: reversing the iteration order of one cover group's
raw-spelling set (a permutation of the same set, as different runs of the
interpreter produce for a Python `set` of strings) changes an output row:
on inputs that mint one show and two linked entries, the whole pipeline
completes in both runs but the cover's display title flips between "A*b"
and "A B" although the raw inputs are identical, so a rerun need not
reproduce identical outputs. -/
theorem C7_counterexample_cover_title_not_reproducible :
    (List.reverse ["a*b", "a b"]).Perm ["a*b", "a b"] ∧
    normalize_database_schema id (some sessQ) (some rowsC7) =
      .ok ⟨[⟨1, "Q", "Unknown", 0, ["q"]⟩, ⟨2, "A*b", "Cover", 0, ["a", "b"]⟩],
            [⟨1, some "2000-01-01", "2000", "V", "Unknown City",
              none, none, none, none, none⟩],
            [⟨1, 1, 2, 1, ""⟩, ⟨2, 1, 2, 2, ""⟩]⟩ ∧
    normalize_database_schema List.reverse (some sessQ) (some rowsC7) =
      .ok ⟨[⟨1, "Q", "Unknown", 0, ["q"]⟩, ⟨2, "A B", "Cover", 0, ["a", "b"]⟩],
            [⟨1, some "2000-01-01", "2000", "V", "Unknown City",
              none, none, none, none, none⟩],
            [⟨1, 1, 2, 1, ""⟩, ⟨2, 1, 2, 2, ""⟩]⟩ ∧
    ("A*b" : String) ≠ "A B" := by
  refine ⟨?_, rfl, rfl, by decide⟩
  exact List.Perm.swap _ _ _

/-- C7 amended: every output component other than song display titles — all
song/show/entry id assignments, albums, outtake flags, token sequences, the
whole shows table and the whole setlists table — is a pure function of the
raw input lists, independent of the iteration order of the per-group
raw-spelling sets, and hence identical from run to run; only a cover's
display title can differ between runs (when its group contains several
shortest raw spellings, the representative picked by `min` over the
unordered set depends on set iteration order). -/
theorem C7_pipeline_reproducible_except_cover_titles
    (r1 r2 : List String → List String) (sessions : List SessionRow)
    (rows : List SetlistRow) :
    (normalize_database_schema r1 (some sessions) (some rows)).map outputKey =
      (normalize_database_schema r2 (some sessions) (some rows)).map outputKey := by
  obtain ⟨h1, h2⟩ := create_final_songs_table_reorder_inv r1 r2 sessions
    (rows.map (fun r => some r.song))
  simp only [normalize_database_schema, Except.map, outputKey]
  rw [h1, h2]

/-! ### Position handling in the linker -/

theorem linkStep_entries_cases (cmap : List (Nat × List String))
    (origMap : List ((String × String) × Nat)) (tourMap : List (Nat × String))
    (stdId reuId : Option Nat) (st : LinkState) (row : SetlistRow) :
    (linkStep cmap origMap tourMap stdId reuId st row).entries = st.entries ∨
    ∃ e : SetlistEntry,
      (linkStep cmap origMap tourMap stdId reuId st row).entries =
        st.entries ++ [e] ∧ e.position = parsePosition row.position := by
  unfold linkStep
  split
  · exact Or.inl rfl
  · split
    · exact Or.inl rfl
    · split
      · exact Or.inl rfl
      · split
        · exact Or.inl rfl
        · split
          · exact Or.inl rfl
          · exact Or.inr ⟨_, rfl, rfl⟩

theorem foldl_linkStep_pos (cmap : List (Nat × List String))
    (origMap : List ((String × String) × Nat)) (tourMap : List (Nat × String))
    (stdId reuId : Option Nat) :
    ∀ (rows : List SetlistRow) (st : LinkState),
      (∀ r ∈ rows, 0 ≤ parsePosition r.position) →
      (∀ e ∈ st.entries, 0 ≤ e.position) →
      ∀ e ∈ (rows.foldl (linkStep cmap origMap tourMap stdId reuId) st).entries,
        0 ≤ e.position := by
  intro rows
  induction rows with
  | nil =>
    intro st _ hst e he
    exact hst e he
  | cons r rs ih =>
    intro st hrows hst e he
    rw [List.foldl_cons] at he
    refine ih _ (fun r2 h2 => hrows r2 (List.mem_cons_of_mem _ h2)) ?_ e he
    intro e2 he2
    rcases linkStep_entries_cases cmap origMap tourMap stdId reuId st r with
      hcase | ⟨e3, hEq, hpos⟩
    · rw [hcase] at he2
      exact hst e2 he2
    · rw [hEq] at he2
      rcases List.mem_append.mp he2 with h | h
      · exact hst e2 h
      · simp only [List.mem_singleton] at h
        subst h
        rw [hpos]
        exact hrows r (List.mem_cons_self _ _)

/-- C8 counterexample: a row whose position field is "-1" is parsed to the
negative integer -1 and kept, so the emitted setlist entry has a negative
position: the linker does not enforce non-negativity. -/
theorem C8_counterexample_negative_position :
    (create_shows_setlists_tables [rowC8] cmapTR).2 =
      [{ setlist_entry_id := 1, show_id := 1, song_id := 1, position := -1,
         notes := "" }] ∧
    ¬(0 : Int) ≤ (-1 : Int) :=
  ⟨rfl, by decide⟩

/-- C8 amended: the linker parses the position as an integer of either sign
(0 when parsing fails, keeping the row); emitted positions are therefore
non-negative only when every input row's position parses to a non-negative
value or fails to parse. -/
theorem C8_positions_nonneg_under_nonneg_inputs (rows : List SetlistRow)
    (cmap : List (Nat × List String))
    (h : ∀ r ∈ rows, 0 ≤ parsePosition r.position) :
    ∀ e ∈ (create_shows_setlists_tables rows cmap).2, 0 ≤ e.position := by
  unfold create_shows_setlists_tables
  dsimp only
  intro e he
  exact foldl_linkStep_pos _ _ _ _ _ rows _ h (by simp) e he

/-- Witness for the amended position claim: a row whose position fails to
parse gets position 0 and every emitted entry is non-negative. -/
theorem C8_positions_nonneg_witness :
    (∀ r ∈ [rowC8w], 0 ≤ parsePosition r.position) ∧
    (∀ e ∈ (create_shows_setlists_tables [rowC8w] cmapTR).2, 0 ≤ e.position) :=
  ⟨by decide, C8_positions_nonneg_under_nonneg_inputs [rowC8w] cmapTR (by decide)⟩

/-! ### Missing input files abort the batch -/

/-- C9: a missing required input file aborts the pipeline with an error
before anything is computed: the sessions-file check fires first, then the
setlists-file check, and in either case no output collections are produced. -/
theorem C9_missing_input_aborts_before_output
    (reorder : List String → List String)
    (sessionsFile : Option (List SessionRow))
    (setlistsFile : Option (List SetlistRow)) :
    (sessionsFile = none →
      normalize_database_schema reorder sessionsFile setlistsFile =
        .error "Songs/Sessions file not found") ∧
    (∀ sessions, sessionsFile = some sessions → setlistsFile = none →
      normalize_database_schema reorder sessionsFile setlistsFile =
        .error "Raw Setlists file not found") := by
  constructor
  · intro h
    subst h
    rfl
  · intro sessions h1 h2
    subst h1
    subst h2
    rfl

/-! ### Display titles and album labels of catalog entries -/

theorem catalog_titles_ne_empty (reorder : List String → List String)
    (sessions : List SessionRow) (titles : List (Option String)) :
    ∀ e ∈ (create_final_songs_table reorder sessions titles).1, e.title ≠ "" := by
  rw [create_final_songs_table_unfold]
  dsimp only
  intro e he
  obtain ⟨ip, hip, rfl⟩ := List.mem_map.mp he
  dsimp only
  have h2 := snd_mem_enumFrom _ _ hip
  rcases List.mem_append.mp h2 with h | h
  · exact (session_entries_aux_shape _ _ _ h).2
  · rw [cover_entries_eq_map] at h
    obtain ⟨g, hg, heq⟩ := List.mem_map.mp h
    rw [← heq]
    dsimp only
    exact get_canonical_display_title_ne_empty _

/-- C10 counterexample: a present-but-whitespace session name maps to the
empty album label (only a null/NaN session maps to "Unknown"), so a catalog
entry can carry an empty album label. -/
theorem C10_counterexample_empty_album :
    get_album_from_session (some " ") = "" ∧
    (create_final_songs_table id sessC10 []).1.map (fun e => (e.title, e.album)) =
      [("Thunder Road", "")] :=
  ⟨rfl, rfl⟩

/-- C10 amended: every catalog entry has a non-empty display title (the
canonicalizer falls back to "Unknown Title" and never returns the empty
string); the album mapper returns "Unknown" for a null session and corrects
"born in the usa" case-insensitively, and cover entries get album "Cover" —
but a present-but-empty or whitespace-only session string yields an empty
album label, so album labels are not always non-empty. -/
theorem C10_title_album_defaults :
    (∀ t, get_canonical_display_title t ≠ "") ∧
    (get_album_from_session none = "Unknown") ∧
    (∀ s, lowerStr (String.mk (stripWS (subWS s.data))) = "born in the usa" →
      get_album_from_session (some s) = "Born in the U.S.A.") ∧
    (∀ (reorder : List String → List String) m,
      ∀ p ∈ cover_entries reorder m, p.album = "Cover") ∧
    (∀ (reorder : List String → List String) sessions titles,
      ∀ e ∈ (create_final_songs_table reorder sessions titles).1, e.title ≠ "") := by
  refine ⟨get_canonical_display_title_ne_empty, rfl, ?_, ?_, catalog_titles_ne_empty⟩
  · intro s h
    simp only [get_album_from_session]
    rw [if_pos h]
  · intro reorder m p hp
    rw [cover_entries_eq_map] at hp
    obtain ⟨g, hg, rfl⟩ := List.mem_map.mp hp
    rfl

end NormalizeData
